import Mathlib

/-!
Verification of the nnet3 component parser (`converter/component.py`).

Lines of input are modelled as `List Char`, positions as `Nat` indices, and
the lazy line buffer (`line_buffer : TextIO` in the source) as the list of
lines not yet pulled; pulling from an exhausted Python file iterator raises
`StopIteration`, modelled by the error `ParseErr.stopIteration`.  Decimal
literals parse to `ℚ` (float tokens are decimal literals, hence rational);
the one irrational computation in the code (`np.power(_, -0.5)` in the
batch-norm adjustment) is modelled over `ℝ` with floating point idealized
as real arithmetic.
-/

namespace Kaldi

/-- ASCII fragment of Python's `str.isspace`, used by the tokenizer
(`line[pos].isspace()` in the source); the inputs handled by the parser are
ASCII so the extra Unicode space characters are not modelled. -/
def pyIsSpace (c : Char) : Bool :=
  c = ' ' || c = '\t' || c = '\n' || c = '\r' || c = '\x0b' || c = '\x0c'

/-- Length of the longest whitespace prefix of `l`: the number of steps the
`while pos < len(line) and line[pos].isspace(): pos += 1` loop of
`read_next_token` makes starting from `pos` when `l = line.drop pos`. -/
def leadingSpaces : List Char → Nat
  | [] => 0
  | c :: cs => if pyIsSpace c then leadingSpaces cs + 1 else 0

/-- Length of the longest non-whitespace prefix of `l`: the number of steps of
the second loop `while pos < len(line) and not line[pos].isspace(): pos += 1`
of `read_next_token` starting from `pos` when `l = line.drop pos`. -/
def leadingNonspaces : List Char → Nat
  | [] => 0
  | c :: cs => if pyIsSpace c then 0 else leadingNonspaces cs + 1

/-- Model of `read_next_token(line, pos)` (component.py lines 367-386): skip
whitespace; if the line is exhausted return `(None, pos)`; otherwise return
the maximal non-whitespace run starting there together with the position just
past it. -/
def read_next_token (line : List Char) (pos : Nat) : Option (List Char) × Nat :=
  let p := pos + leadingSpaces (line.drop pos)
  if line.length ≤ p then
    (none, p)
  else
    (some ((line.drop p).take (leadingNonspaces (line.drop p))),
     p + leadingNonspaces (line.drop p))

/-- Errors raised by the parser.  `stopIteration` models Python's
`StopIteration` escaping from `next(line_buffer)` on an exhausted file
iterator; `checkFail` models the `ValueError` raised by `check` from
`converter/utils.py`; `valueError`, `typeError`, `keyError` and
`attributeError` model the corresponding built-in Python exceptions raised
by `int()` / `float()` / dict lookup / `.shape` access; `outOfFuel` is the
bookkeeping value of the fuelled loops below and never occurs for the fuel
the top-level readers supply on the runs analysed here. -/
inductive ParseErr where
  | stopIteration : ParseErr
  | checkFail (msg : String) : ParseErr
  | valueError (msg : String) : ParseErr
  | typeError (msg : String) : ParseErr
  | keyError (key : String) : ParseErr
  | attributeError (msg : String) : ParseErr
  | outOfFuel : ParseErr
deriving DecidableEq

/-- Modelled from the spec: `check` lives in `converter/utils.py`, which is
not included under `src/`; per spec §7 every failed check is a fatal parse
error carrying the given message, and a passing check is a no-op. -/
def check (b : Bool) (msg : String) : Except ParseErr Unit :=
  if b then .ok () else .error (.checkFail msg)

/-- How a token renders inside a Python f-string: `None` for a missing
token, the bare characters otherwise. -/
def showTok : Option (List Char) → String
  | none => "None"
  | some t => String.mk t

/-- Model of `read_component_type(line, pos)` (component.py lines 389-405): read one
token and demand length at least 13, first character `<`, and last ten
characters `Component>`; otherwise raise a `ValueError` naming the token and
the position. -/
def read_component_type (line : List Char) (pos : Nat) :
    Except ParseErr (List Char × Nat) :=
  match read_next_token line pos with
  | (tokOpt, p) =>
    match tokOpt with
    | some tok =>
      if 13 ≤ tok.length ∧ tok.headI = '<' ∧
          tok.drop (tok.length - 10) = "Component>".toList then
        .ok (tok, p)
      else
        .error (.valueError ("Error reading Component at position " ++
          toString p ++ ", expected <xxxComponent>, got: " ++ showTok (some tok) ++ "."))
    | none =>
      .error (.valueError ("Error reading Component at position " ++
        toString p ++ ", expected <xxxComponent>, got: " ++ showTok none ++ "."))

/-- Numeric value of a digit string, most significant first. -/
def digitsVal (ds : List Char) : Nat :=
  ds.foldl (fun a c => a * 10 + (c.toNat - 48)) 0

/-- A non-empty all-digit string parses to its value; anything else fails. -/
def parseNatDigits (ds : List Char) : Option Nat :=
  if ds ≠ [] ∧ ds.all Char.isDigit then some (digitsVal ds) else none

/-- Strip one optional leading sign, returning the sign as `1` or `-1`. -/
def splitSign : List Char → Int × List Char
  | '+' :: cs => (1, cs)
  | '-' :: cs => (-1, cs)
  | cs => (1, cs)

/-- Split at the first character satisfying `sep`: the part before it, and
`some` rest after it when a separator occurs. -/
def splitAtChar (sep : Char → Bool) : List Char → List Char × Option (List Char)
  | [] => ([], none)
  | c :: cs =>
    if sep c then ([], some cs)
    else
      match splitAtChar sep cs with
      | (a, b) => (c :: a, b)

/-- Python `int(tok)` on a whitespace-free token: optional sign followed by a
non-empty digit string (underscored literals are not modelled).  `none`
models the `ValueError` raised on anything else. -/
def parseInt (t : List Char) : Option Int :=
  match splitSign t with
  | (sgn, ds) => (parseNatDigits ds).map (fun n => sgn * n)

/-- Python `float(tok)` on a whitespace-free token, restricted to finite
decimal literals (`inf` / `nan` / underscored literals are not modelled):
optional sign, digits with at most one dot and at least one digit, optional
exponent.  Every such literal denotes the exact rational
`sgn * digits * 10 ^ (exponent - fractionLength)`, which is returned as one
exact integer quotient via `Rat.divInt`. -/
def parseFloat (t : List Char) : Option ℚ :=
  match splitSign t with
  | (sgn, body) =>
    match splitAtChar (fun c => c = 'e' || c = 'E') body with
    | (mant, expPart) =>
      let expVal : Option Int :=
        match expPart with
        | none => some 0
        | some e =>
          match splitSign e with
          | (es, ed) => (parseNatDigits ed).map (fun n => es * n)
      match splitAtChar (fun c => c = '.') mant with
      | (ip, fpOpt) =>
        let fp := fpOpt.getD []
        if (ip ++ fp) ≠ [] ∧ (ip ++ fp).all Char.isDigit then
          match expVal with
          | none => none
          | some ex =>
            some (Rat.divInt (sgn * (digitsVal (ip ++ fp) : Int) * 10 ^ ex.toNat)
              (10 ^ (fp.length + (-ex).toNat)))
        else none

/-- Equality of parse results is decidable whenever the payload's is. -/
instance {ε α : Type} [DecidableEq ε] [DecidableEq α] : DecidableEq (Except ε α)
  | .ok a, .ok b =>
    match decEq a b with
    | isTrue h => isTrue (by rw [h])
    | isFalse h => isFalse (by intro hc; cases hc; exact h rfl)
  | .ok _, .error _ => isFalse (by intro hc; cases hc)
  | .error _, .ok _ => isFalse (by intro hc; cases hc)
  | .error a, .error b =>
    match decEq a b with
    | isTrue h => isTrue (by rw [h])
    | isFalse h => isFalse (by intro hc; cases hc; exact h rfl)

/-- Model of `_read_bool(line, pos, line_buffer)` (component.py lines 408-430):
read one token; `F|False|false` means `false`, `T|True|true` means `true`,
anything else raises a `ValueError` naming the token and position.  The
line buffer argument is unused in the source (`del line_buffer`). -/
def read_bool (line : List Char) (pos : Nat) :
    Except ParseErr (Bool × List Char × Nat) :=
  match read_next_token line pos with
  | (tok, p) =>
    if tok = some "F".toList ∨ tok = some "False".toList ∨ tok = some "false".toList then
      .ok (false, line, p)
    else if tok = some "T".toList ∨ tok = some "True".toList ∨ tok = some "true".toList then
      .ok (true, line, p)
    else
      .error (.valueError ("Error at position " ++ toString p ++
        ", expected bool but got " ++ showTok tok ++ "."))

/-- Model of `_read_int(line, pos, line_buffer)` (component.py lines 433-447): read
one token and convert with `int()`; the line buffer argument is unused. -/
def read_int (line : List Char) (pos : Nat) :
    Except ParseErr (Int × List Char × Nat) :=
  match read_next_token line pos with
  | (some tok, p) =>
    match parseInt tok with
    | some n => .ok (n, line, p)
    | none => .error (.valueError ("invalid literal for int: " ++ String.mk tok))
  | (none, _) => .error (.typeError "int() argument must be a string, not NoneType")

/-- Model of `_read_float(line, pos, line_buffer)` (component.py lines 450-467): read
one token and convert with `float()`; the line buffer argument is unused. -/
def read_float (line : List Char) (pos : Nat) :
    Except ParseErr (ℚ × List Char × Nat) :=
  match read_next_token line pos with
  | (some tok, p) =>
    match parseFloat tok with
    | some q => .ok (q, line, p)
    | none => .error (.valueError ("could not convert string to float: " ++ String.mk tok))
  | (none, _) => .error (.typeError "float() argument must be a string, not NoneType")

/-- Fuel that bounds the iteration count of the multi-line reading loops
below on the runs analysed here: one unit per remaining character of the
current line plus one unit per character and per pull of each buffered line,
plus one.  Every loop iteration either consumes at least one character of
the current line or pulls one buffered line. -/
def streamFuel (line : List Char) (pos : Nat) (buf : List (List Char)) : Nat :=
  (line.length - pos) + (buf.map (fun l => l.length + 1)).sum + 1

/-- The `while True` loop of `__read_vector` (component.py lines 488-499):
collect raw tokens until a literal `]` token; a `None` token pulls the next
line (`next(line_buffer)`, which raises `StopIteration` when the file is
exhausted — the `check(line is not None, ...)` guarding it can never fire
because `next` on a `TextIO` never returns `None`) and resumes at position
0.  The final `check(tok is not None, ...)` after the loop (line 501) always
passes on the `]` exit and is a no-op. -/
def readVectorLoop : Nat → List Char → Nat → List (List Char) → List (List Char) →
    Except ParseErr (List (List Char) × List Char × Nat × List (List Char))
  | 0, _, _, _, _ => .error .outOfFuel
  | fuel + 1, line, pos, buf, acc =>
    match read_next_token line pos with
    | (some tok, p) =>
      if tok = "]".toList then .ok (acc, line, p, buf)
      else readVectorLoop fuel line p buf (acc ++ [tok])
    | (none, _) =>
      match buf with
      | [] => .error .stopIteration
      | l :: rest => readVectorLoop fuel l 0 rest acc

/-- Model of `__read_vector(line, pos, line_buffer)` (component.py lines 470-502):
`check` that the next token is `[`, then collect tokens with the loop. -/
def read_vector (line : List Char) (pos : Nat) (buf : List (List Char)) :
    Except ParseErr (List (List Char) × List Char × Nat × List (List Char)) :=
  match read_next_token line pos with
  | (tok, p) =>
    if tok = some "[".toList then
      readVectorLoop (streamFuel line p buf) line p buf []
    else
      .error (.checkFail ("Error at line position " ++ toString p ++
        ", expected [ but got " ++ showTok tok ++ "."))

/-- Elementwise `int(v)` over collected vector tokens, first failure wins
(`[int(v) for v in vector]`, component.py line 520). -/
def mapIntTokens : List (List Char) → Except ParseErr (List Int)
  | [] => .ok []
  | t :: ts =>
    match parseInt t with
    | none => .error (.valueError ("invalid literal for int: " ++ String.mk t))
    | some n =>
      match mapIntTokens ts with
      | .error e => .error e
      | .ok ns => .ok (n :: ns)

/-- Elementwise `float(v)` over collected vector tokens, first failure wins
(`[float(v) for v in vector]`, component.py line 538). -/
def mapFloatTokens : List (List Char) → Except ParseErr (List ℚ)
  | [] => .ok []
  | t :: ts =>
    match parseFloat t with
    | none => .error (.valueError ("could not convert string to float: " ++ String.mk t))
    | some q =>
      match mapFloatTokens ts with
      | .error e => .error e
      | .ok qs => .ok (q :: qs)

/-- Model of `_read_vector_int` (component.py lines 505-520). -/
def read_vector_int (line : List Char) (pos : Nat) (buf : List (List Char)) :
    Except ParseErr (List Int × List Char × Nat × List (List Char)) :=
  match read_vector line pos buf with
  | .error e => .error e
  | .ok (toks, l, p, b) =>
    match mapIntTokens toks with
    | .error e => .error e
    | .ok v => .ok (v, l, p, b)

/-- Model of `_read_vector_float` (component.py lines 523-538). -/
def read_vector_float (line : List Char) (pos : Nat) (buf : List (List Char)) :
    Except ParseErr (List ℚ × List Char × Nat × List (List Char)) :=
  match read_vector line pos buf with
  | .error e => .error e
  | .ok (toks, l, p, b) =>
    match mapFloatTokens toks with
    | .error e => .error e
    | .ok v => .ok (v, l, p, b)

/-- Whether the leading whitespace run of `l` contains a newline: the flag
computed by the scan of `__check_for_newline`. -/
def newlineInLeadingSpaces : List Char → Bool
  | [] => false
  | c :: cs => pyIsSpace c && (c = '\n' || newlineInLeadingSpaces cs)

/-- Model of `__check_for_newline(line, pos)` (component.py lines 541-556): advance
past the whitespace run starting at `pos`, reporting whether it contained a
newline character. -/
def checkForNewline (line : List Char) (pos : Nat) : Bool × Nat :=
  (newlineInLeadingSpaces (line.drop pos), pos + leadingSpaces (line.drop pos))

/-- The inner row loop of `_read_matrix_trans` (component.py lines 579-591):
read tokens into one row; a literal `[` right after a row start is skipped
by one extra read; `]` or `None` ends the row (reported to the outer loop
as the last token); after appending an element, a newline inside the
whitespace that follows it also ends the row. -/
def matrixRowLoop : Nat → List Char → Nat → List ℚ →
    Except ParseErr (Option (List Char) × List ℚ × Nat)
  | 0, _, _, _ => .error .outOfFuel
  | fuel + 1, line, pos, row =>
    match read_next_token line pos with
    | (tok0, p0) =>
      match (if tok0 = some "[".toList then read_next_token line p0 else (tok0, p0)) with
      | (none, p) => .ok (none, row, p)
      | (some t, p) =>
        if t = "]".toList then .ok (some t, row, p)
        else
          match parseFloat t with
          | none => .error (.valueError ("could not convert string to float: " ++ String.mk t))
          | some q =>
            match checkForNewline line p with
            | (sawNL, p2) =>
              if sawNL then .ok (some t, row ++ [q], p2)
              else matrixRowLoop fuel line p2 (row ++ [q])

/-- The outer loop of `_read_matrix_trans` (component.py lines 577-601):
read rows; a non-empty row is appended to the accumulator; a `]` last token
finishes the matrix; a `None` last token pulls the next line
(`next(line_buffer)`, raising `StopIteration` at end of file — the
`check(line is not None, 'Encountered EOF while reading matrix.')` after it
can never fire) and restarts at position 0; otherwise (newline-terminated
row) reading continues on the same line. -/
def matrixLoop : Nat → List Char → Nat → List (List Char) → List (List ℚ) →
    Except ParseErr (List (List ℚ) × List Char × Nat × List (List Char))
  | 0, _, _, _, _ => .error .outOfFuel
  | fuel + 1, line, pos, buf, mat =>
    match matrixRowLoop (line.length - pos + 1) line pos [] with
    | .error e => .error e
    | .ok (tok, row, p) =>
      let mat2 := if row.isEmpty then mat else mat ++ [row]
      if tok = some "]".toList then .ok (mat2, line, p, buf)
      else
        match tok with
        | none =>
          match buf with
          | [] => .error .stopIteration
          | l :: rest => matrixLoop fuel l 0 rest mat2
        | some _ => matrixLoop fuel line p buf mat2

/-- Whether all rows have the length of the first: the matrices accepted by
`np.array(mat, dtype=np.float32)` as genuine 2-D arrays. -/
def rectangular : List (List ℚ) → Bool
  | [] => true
  | r :: rs => rs.all (fun s => s.length = r.length)

/-- Transpose of a rectangular row-major matrix, as `np.transpose`: column `j` of the
input becomes row `j` of the output. -/
def transposeRect : List (List ℚ) → List (List ℚ)
  | [] => []
  | r :: rs => (List.range r.length).map (fun j => (r :: rs).map (fun row => row.getD j 0))

/-- Model of `_read_matrix_trans(line, pos, line_buffer)` (component.py lines
559-602): `check` the opening `[`, run the row/matrix loops, and return
`np.transpose(np.array(mat, dtype=np.float32))`.  `np.array` with a fixed
dtype raises a `ValueError` on ragged row lengths, modelled by the
`rectangular` guard. -/
def read_matrix_trans (line : List Char) (pos : Nat) (buf : List (List Char)) :
    Except ParseErr (List (List ℚ) × List Char × Nat × List (List Char)) :=
  match read_next_token line pos with
  | (tok, p) =>
    if tok = some "[".toList then
      match matrixLoop (streamFuel line p buf) line p buf [] with
      | .error e => .error e
      | .ok (mat, l, p2, b) =>
        if rectangular mat then .ok (transposeRect mat, l, p2, b)
        else .error (.valueError "setting an array element with a sequence")
    else
      .error (.checkFail ("Error at line position " ++ toString p ++
        ", expected [ but got " ++ showTok tok ++ "."))

/-- Attribute values stored in a component's `_attrs` dictionary: Python
ints, floats (exact rationals here), numpy integer and float vectors and
float matrices as parsed, and real-valued vectors (`vecReal`) as produced by
the batch-norm adjustment, whose `x ^ (-0.5)` is idealized over `ℝ`. -/
inductive Value where
  | int (n : Int) : Value
  | float (q : ℚ) : Value
  | vecInt (v : List Int) : Value
  | vecFloat (v : List ℚ) : Value
  | matrix (m : List (List ℚ)) : Value
  | vecReal (v : List ℝ) : Value

/-- Model of `value.shape[0]` for the numpy-array-valued attributes; `none` models
the `AttributeError`/`IndexError` a Python scalar would raise. -/
def valueShape0 : Value → Option Nat
  | .vecInt v => some v.length
  | .vecFloat v => some v.length
  | .matrix m => some m.length
  | .vecReal v => some v.length
  | .int _ => none
  | .float _ => none

/-- A Python `dict` with string keys in insertion order (the component's
`_attrs` and `__consts`); keys are unique in every reachable state. -/
abbrev AttrMap := List (String × Value)

/-- Dictionary lookup: value at the first matching key. -/
def amLookup : AttrMap → String → Option Value
  | [], _ => none
  | e :: m, k => if e.1 = k then some e.2 else amLookup m k

/-- Dictionary membership test (`key in d`). -/
def amContains : AttrMap → String → Bool
  | [], _ => false
  | e :: m, k => if e.1 = k then true else amContains m k

/-- Replace the value stored under an existing key, keeping its position. -/
def amReplace : AttrMap → String → Value → AttrMap
  | [], _, _ => []
  | e :: m, k, v => if e.1 = k then (k, v) :: amReplace m k v else e :: amReplace m k v

/-- Dictionary assignment `d[k] = v` (`Component.__setitem__`, component.py
lines 108-115): overwrite in place when the key exists, append otherwise. -/
def amSet (m : AttrMap) (k : String) (v : Value) : AttrMap :=
  if amContains m k then amReplace m k v else m ++ [(k, v)]

/-- Dictionary removal `d.pop(k)`. -/
def amPop : AttrMap → String → AttrMap
  | [], _ => []
  | e :: m, k => if e.1 = k then amPop m k else e :: amPop m k

/-- The component variants that own an attribute table: `Component` itself
(`base`: also the table of `GeneralDropoutComponent`, `NoOpComponent`,
`RectifiedLinearComponent`, `LogSoftmaxComponent`), `AffineComponent` (also
`FixedAffineComponent`, `LinearComponent`,
`NaturalGradientAffineComponent`), `BatchNormComponent` and
`TdnnComponent`. -/
inductive Kind where
  | base : Kind
  | affine : Kind
  | batchNorm : Kind
  | tdnn : Kind
deriving DecidableEq

/-- The value readers an attribute table can point at. -/
inductive ReaderKind where
  | rInt : ReaderKind
  | rFloat : ReaderKind
  | rVecInt : ReaderKind
  | rVecFloat : ReaderKind
  | rMatrixTrans : ReaderKind
deriving DecidableEq

/-- The `_actions` tables (component.py lines 117-129, 322-329, 335-344,
357-364): grammar tag to reader and storage key. -/
def actionsOf : Kind → List (List Char × ReaderKind × String)
  | .base =>
    [("<Dim>".toList, .rInt, "dim"),
     ("<InputDim>".toList, .rInt, "input_dim"),
     ("<OutputDim>".toList, .rInt, "output_dim")]
  | .affine =>
    [("<Params>".toList, .rMatrixTrans, "params"),
     ("<LinearParams>".toList, .rMatrixTrans, "params"),
     ("<BiasParams>".toList, .rVecFloat, "bias")]
  | .batchNorm =>
    [("<Dim>".toList, .rInt, "dim"),
     ("<Epsilon>".toList, .rFloat, "epsilon"),
     ("<TargetRms>".toList, .rFloat, "target_rms"),
     ("<StatsMean>".toList, .rVecFloat, "stats_mean"),
     ("<StatsVar>".toList, .rVecFloat, "stats_var")]
  | .tdnn =>
    [("<TimeOffsets>".toList, .rVecInt, "time_offsets"),
     ("<LinearParams>".toList, .rMatrixTrans, "params"),
     ("<BiasParams>".toList, .rVecFloat, "bias")]

/-- Model of `token in actions` followed by `actions[token]`. -/
def lookupAction (k : Kind) (tok : List Char) : Option (ReaderKind × String) :=
  match (actionsOf k).find? (fun e => e.1 == tok) with
  | some e => some e.2
  | none => none

/-- Dispatch to the reader a table entry names, wrapping the result as a
stored `Value`.  The scalar readers ignore and return the buffer unchanged
(their Python counterparts delete the unused `line_buffer` argument). -/
def runReader : ReaderKind → List Char → Nat → List (List Char) →
    Except ParseErr (Value × List Char × Nat × List (List Char))
  | .rInt, line, pos, buf =>
    match read_int line pos with
    | .error e => .error e
    | .ok (n, l, p) => .ok (.int n, l, p, buf)
  | .rFloat, line, pos, buf =>
    match read_float line pos with
    | .error e => .error e
    | .ok (q, l, p) => .ok (.float q, l, p, buf)
  | .rVecInt, line, pos, buf =>
    match read_vector_int line pos buf with
    | .error e => .error e
    | .ok (v, l, p, b) => .ok (.vecInt v, l, p, b)
  | .rVecFloat, line, pos, buf =>
    match read_vector_float line pos buf with
    | .error e => .error e
    | .ok (v, l, p, b) => .ok (.vecFloat v, l, p, b)
  | .rMatrixTrans, line, pos, buf =>
    match read_matrix_trans line pos buf with
    | .error e => .error e
    | .ok (m, l, p, b) => .ok (.matrix m, l, p, b)

/-- The `while True` read loop of `Component.read_attributes` (component.py
lines 150-165): read a token; a terminating token stops the loop (with the
position just past it); a `None` token pulls the next line
(`next(line_buffer)` raises `StopIteration` at end of file, so the
`check(line is not None, 'Error parsing nnet3 file.')` after it can never
fire) and resumes at position 0; a table token runs its reader and stores
the value under its key; any other token is skipped.  The source tests
`token in terminating_tokens` before testing `token is None`; the two
orders agree because a set of strings never contains `None`. -/
def attrLoop (k : Kind) (term : List (List Char)) :
    Nat → List Char → Nat → List (List Char) → AttrMap →
    Except ParseErr (AttrMap × List Char × Nat × List (List Char))
  | 0, _, _, _, _ => .error .outOfFuel
  | fuel + 1, line, pos, buf, attrs =>
    match read_next_token line pos with
    | (some tok, p) =>
      if tok ∈ term then .ok (attrs, line, p, buf)
      else
        match lookupAction k tok with
        | some (r, name) =>
          match runReader r line p buf with
          | .error e => .error e
          | .ok (v, l2, p2, b2) => attrLoop k term fuel l2 p2 b2 (amSet attrs name v)
        | none => attrLoop k term fuel line p buf attrs
    | (none, _) =>
      match buf with
      | [] => .error .stopIteration
      | l :: rest => attrLoop k term fuel l 0 rest attrs

/-- Model of `_adjust_attributes` (component.py lines 131-132 and 346-351): the base
method is a no-op inherited by every variant except `BatchNormComponent`,
which replaces its raw statistics in place:
`stats_var += epsilon`, `scale = target_rms * stats_var ** -0.5`,
`attrs['stats_var'] = -(scale * stats_mean)`, `attrs['stats_mean'] = scale`.
Missing keys raise `KeyError` exactly as the Python dict accesses would;
numpy float arithmetic is idealized over `ℝ`, with `np.power(x, -0.5)`
modelled as the real power `x ^ (-(1/2) : ℝ)`; the elementwise product
requires equal lengths (numpy's length-one broadcasting is not modelled). -/
noncomputable def adjustAttributes : Kind → AttrMap → Except ParseErr AttrMap
  | Kind.batchNorm, attrs =>
    match amLookup attrs "stats_var" with
    | none => .error (.keyError "stats_var")
    | some w =>
      match amLookup attrs "epsilon" with
      | none => .error (.keyError "epsilon")
      | some e =>
        match amLookup attrs "target_rms" with
        | none => .error (.keyError "target_rms")
        | some r =>
          match amLookup attrs "stats_mean" with
          | none => .error (.keyError "stats_mean")
          | some mval =>
            match w, e, r, mval with
            | Value.vecFloat sv, Value.float eps, Value.float rms, Value.vecFloat sm =>
              if sv.length = sm.length then
                let scale : List ℝ :=
                  (sv.map (fun x => x + eps)).map
                    (fun (x : ℚ) => (rms : ℝ) * (x : ℝ) ^ (-(1 / 2) : ℝ))
                let shift : List ℝ :=
                  List.zipWith (fun (s : ℝ) (m : ℚ) => -(s * (m : ℝ))) scale sm
                .ok (amSet (amSet attrs "stats_var" (.vecReal shift))
                  "stats_mean" (.vecReal scale))
              else .error (.valueError "operands could not be broadcast together")
            | _, _, _, _ => .error (.typeError "unsupported operand type for batch-norm statistics")
  | Kind.base, attrs => .ok attrs
  | Kind.affine, attrs => .ok attrs
  | Kind.tdnn, attrs => .ok attrs

/-- The slice of a `Component` that `read_attributes` reads and writes:
`name`, `inputs`, `dim`, `_attrs` and `__consts` (component.py lines
43-49).  The `id` and node `type` fields are never touched by parsing and
are omitted. -/
structure CompState where
  name : String
  inputs : List String
  dim : Option Value
  attrs : AttrMap
  consts : AttrMap

/-- The prefixed constant name `f'{self.name}_{const_name}'` (component.py
line 181). -/
def constName (name key : String) : String := name ++ "_" ++ key

/-- The ordered candidate keys of the constant-promotion loop
(component.py line 173). -/
def constNames : List String := ["params", "bias", "stats_mean", "stats_var"]

/-- The constant-promotion loop (component.py lines 173-184) over an
explicit key list: a present `bias` of length zero is dropped; any other
present key is moved into the constants under its prefixed name, which is
appended to the inputs.  `valueShape0 v = none` models the exception a
shapeless value would raise at `self._attrs[const_name].shape[0]`. -/
def promoteGo (name : String) : List String → List String → AttrMap → AttrMap →
    Except ParseErr (List String × AttrMap × AttrMap)
  | [], inputs, consts, attrs => .ok (inputs, consts, attrs)
  | key :: rest, inputs, consts, attrs =>
    match amLookup attrs key with
    | none => promoteGo name rest inputs consts attrs
    | some v =>
      if key = "bias" then
        match valueShape0 v with
        | none => .error (.attributeError "object has no attribute shape")
        | some n =>
          if n = 0 then promoteGo name rest inputs consts (amPop attrs key)
          else
            promoteGo name rest (inputs ++ [constName name key])
              (amSet consts (constName name key) v) (amPop attrs key)
      else
        promoteGo name rest (inputs ++ [constName name key])
          (amSet consts (constName name key) v) (amPop attrs key)

/-- The constant-promotion step, over the fixed key list. -/
def promoteConsts (name : String) (inputs : List String) (consts attrs : AttrMap) :
    Except ParseErr (List String × AttrMap × AttrMap) :=
  promoteGo name constNames inputs consts attrs

/-- Model of `Component.read_attributes` (component.py lines 134-184): run the read
loop, the per-variant adjustment, the promotion of `dim` to the first-class
field, and the constant promotion, returning the updated component state
together with the final line, position and remaining buffer. -/
noncomputable def read_attributes (k : Kind) (c : CompState) (line : List Char)
    (pos : Nat) (buf : List (List Char)) (term : List (List Char)) :
    Except ParseErr (CompState × List Char × Nat × List (List Char)) :=
  match attrLoop k term (streamFuel line pos buf) line pos buf c.attrs with
  | .error e => .error e
  | .ok (attrs1, line1, pos1, buf1) =>
    match adjustAttributes k attrs1 with
    | .error e => .error e
    | .ok attrs2 =>
      let dimStep : Option Value × AttrMap :=
        match amLookup attrs2 "dim" with
        | some v => (some v, amPop attrs2 "dim")
        | none => (c.dim, attrs2)
      match promoteConsts c.name c.inputs c.consts dimStep.2 with
      | .error e => .error e
      | .ok (inputs4, consts4, attrs4) =>
        .ok (CompState.mk c.name inputs4 dimStep.1 attrs4 consts4, line1, pos1, buf1)

/-- Specification-level predicate (spec §4.6): a candidate key is promoted
when it is present in the attribute map, except a `bias` whose stored array
has length zero. -/
def promotedP (attrs : AttrMap) (k : String) : Bool :=
  match amLookup attrs k with
  | none => false
  | some v => !(k == "bias" && valueShape0 v == some 0)

/-- Specification-level list of promoted keys, in candidate order. -/
def promotedKeysSpec (attrs : AttrMap) (keys : List String) : List String :=
  keys.filter (promotedP attrs)

/-- Specification-level new inputs: the prefixed names of the promoted
keys, in candidate order. -/
def promoteInputsSpec (name : String) (attrs : AttrMap) (keys : List String) :
    List String :=
  (promotedKeysSpec attrs keys).map (constName name)

/-- Specification-level constants map: each promoted key's value stored
under its prefixed name, in candidate order. -/
def promoteConstsSpec (name : String) (attrs : AttrMap) : List String → AttrMap → AttrMap
  | [], consts => consts
  | key :: rest, consts =>
    if promotedP attrs key then
      promoteConstsSpec name attrs rest
        (amSet consts (constName name key) ((amLookup attrs key).getD (Value.int 0)))
    else promoteConstsSpec name attrs rest consts

/-- Boolean membership in a key list. -/
def memKeys : List String → String → Bool
  | [], _ => false
  | k2 :: ks, k => if k = k2 then true else memKeys ks k

/-- Specification-level residual attribute map: every entry whose key is a
candidate is removed (promotion is a move). -/
def promoteAttrsSpec (attrs : AttrMap) (keys : List String) : AttrMap :=
  attrs.filter (fun e => !(memKeys keys e.1))

/-! ## Tokenizer lemmas -/

theorem leadingSpaces_le (l : List Char) : leadingSpaces l ≤ l.length := by
  induction l with
  | nil => simp [leadingSpaces]
  | cons c cs ih =>
    cases hc : pyIsSpace c <;> simp [leadingSpaces, hc] <;> omega

theorem leadingNonspaces_le (l : List Char) : leadingNonspaces l ≤ l.length := by
  induction l with
  | nil => simp [leadingNonspaces]
  | cons c cs ih =>
    cases hc : pyIsSpace c <;> simp [leadingNonspaces, hc] <;> omega

theorem mem_take_leadingSpaces (l : List Char) :
    ∀ c ∈ l.take (leadingSpaces l), pyIsSpace c = true := by
  induction l with
  | nil => simp
  | cons d cs ih =>
    cases hd : pyIsSpace d
    · simp [leadingSpaces, hd]
    · simp only [leadingSpaces, hd, if_pos, List.take_succ_cons, List.mem_cons]
      rintro c (rfl | hc)
      · exact hd
      · exact ih c hc

theorem mem_take_leadingNonspaces (l : List Char) :
    ∀ c ∈ l.take (leadingNonspaces l), pyIsSpace c = false := by
  induction l with
  | nil => simp
  | cons d cs ih =>
    cases hd : pyIsSpace d
    · simp only [leadingNonspaces, hd, Bool.false_eq_true, if_false, List.take_succ_cons,
        List.mem_cons]
      rintro c (rfl | hc)
      · exact hd
      · exact ih c hc
    · simp [leadingNonspaces, hd]

theorem leadingSpaces_eq_length (l : List Char) :
    leadingSpaces l = l.length ↔ ∀ c ∈ l, pyIsSpace c = true := by
  induction l with
  | nil => simp [leadingSpaces]
  | cons d cs ih =>
    cases hd : pyIsSpace d
    · simp [leadingSpaces, hd]
    · simp [leadingSpaces, hd, ih]

theorem head_drop_leadingSpaces (l : List Char) :
    ∀ c cs, l.drop (leadingSpaces l) = c :: cs → pyIsSpace c = false := by
  induction l with
  | nil => intro c cs h; simp at h
  | cons d ds ih =>
    cases hd : pyIsSpace d
    · intro c cs h
      simp only [leadingSpaces, hd, Bool.false_eq_true, if_false, List.drop_zero] at h
      cases h
      exact hd
    · intro c cs h
      simp only [leadingSpaces, hd, if_pos, List.drop_succ_cons] at h
      exact ih c cs h

theorem head_drop_leadingNonspaces (l : List Char) :
    ∀ c cs, l.drop (leadingNonspaces l) = c :: cs → pyIsSpace c = true := by
  induction l with
  | nil => intro c cs h; simp at h
  | cons d ds ih =>
    cases hd : pyIsSpace d
    · intro c cs h
      simp only [leadingNonspaces, hd, Bool.false_eq_true, if_false, List.drop_succ_cons] at h
      exact ih c cs h
    · intro c cs h
      simp only [leadingNonspaces, hd, if_pos, List.drop_zero] at h
      cases h
      exact hd

theorem drop_drop_add (l : List Char) (p q : Nat) :
    (l.drop p).drop q = l.drop (p + q) := by
  rw [List.drop_drop, Nat.add_comm]

theorem drop_split (l : List Char) (p q : Nat) :
    l.drop p = (l.drop p).take q ++ l.drop (p + q) := by
  conv_lhs => rw [← List.take_append_drop q (l.drop p)]
  rw [drop_drop_add]

/-- C4: for every string and every start offset up to its length, the
tokenizer never moves the position backwards; it returns `none` exactly when
only whitespace remains at or after the offset; and when it returns a token,
the token is a non-empty run of non-whitespace characters, the skipped
prefix is pure whitespace, the suffix from the old position splits exactly
as skipped-whitespace ++ token ++ rest with the new position just past the
token, and the rest starts with whitespace or is empty (maximality) — so
repeated calls consume the string left to right with no character skipped or
duplicated. -/
theorem c4_tokenizer (line : List Char) (pos : Nat) (hpos : pos ≤ line.length) :
    pos ≤ (read_next_token line pos).2 ∧
    ((read_next_token line pos).1 = none ↔ ∀ c ∈ line.drop pos, pyIsSpace c = true) ∧
    ∀ t, (read_next_token line pos).1 = some t →
      t ≠ [] ∧ (∀ c ∈ t, pyIsSpace c = false) ∧
      ∃ ws, (∀ c ∈ ws, pyIsSpace c = true) ∧
        line.drop pos = ws ++ t ++ line.drop (read_next_token line pos).2 ∧
        (read_next_token line pos).2 = pos + ws.length + t.length ∧
        ∀ c cs, line.drop (read_next_token line pos).2 = c :: cs → pyIsSpace c = true := by
  have hdlen : (line.drop pos).length = line.length - pos := List.length_drop pos line
  have hsle := leadingSpaces_le (line.drop pos)
  have hdropdrop :
      (line.drop pos).drop (leadingSpaces (line.drop pos)) =
        line.drop (pos + leadingSpaces (line.drop pos)) :=
    drop_drop_add line pos (leadingSpaces (line.drop pos))
  by_cases hcase : line.length ≤ pos + leadingSpaces (line.drop pos)
  · have h1 : read_next_token line pos = (none, pos + leadingSpaces (line.drop pos)) := by
      simp [read_next_token, hcase]
    rw [h1]
    refine ⟨Nat.le_add_right _ _, ?_, ?_⟩
    · simp only [true_iff]
      exact (leadingSpaces_eq_length (line.drop pos)).mp (by omega)
    · intro t ht
      exact absurd ht (by simp)
  · have h1 : read_next_token line pos =
        (some ((line.drop (pos + leadingSpaces (line.drop pos))).take
            (leadingNonspaces (line.drop (pos + leadingSpaces (line.drop pos))))),
         pos + leadingSpaces (line.drop pos) +
           leadingNonspaces (line.drop (pos + leadingSpaces (line.drop pos)))) := by
      simp [read_next_token, hcase]
    have hplt : pos + leadingSpaces (line.drop pos) < line.length := by omega
    obtain ⟨c0, cs0, hcons⟩ :
        ∃ c0 cs0, line.drop (pos + leadingSpaces (line.drop pos)) = c0 :: cs0 := by
      cases hd : line.drop (pos + leadingSpaces (line.drop pos)) with
      | nil =>
        have := List.drop_eq_nil_iff_le.mp hd
        omega
      | cons c0 cs0 => exact ⟨c0, cs0, rfl⟩
    have hc0 : pyIsSpace c0 = false := by
      apply head_drop_leadingSpaces (line.drop pos) c0 cs0
      rw [hdropdrop, hcons]
    have hc0mem : c0 ∈ line.drop pos := by
      apply List.mem_of_mem_drop (n := leadingSpaces (line.drop pos))
      rw [hdropdrop, hcons]
      exact List.mem_cons_self _ _
    rw [h1]
    refine ⟨by omega, ?_, ?_⟩
    · simp only [iff_false, Bool.not_eq_true]
      constructor
      · intro h
        cases h
      · intro hall
        rw [hall c0 hc0mem] at hc0
        cases hc0
    · intro t ht
      have ht' : t = (line.drop (pos + leadingSpaces (line.drop pos))).take
          (leadingNonspaces (line.drop (pos + leadingSpaces (line.drop pos)))) := by
        injection ht with h
        exact h.symm
      subst ht'
      refine ⟨?_, mem_take_leadingNonspaces _, ?_⟩
      · rw [hcons]
        have : leadingNonspaces (c0 :: cs0) = leadingNonspaces cs0 + 1 := by
          simp [leadingNonspaces, hc0]
        rw [this]
        simp
      · refine ⟨(line.drop pos).take (leadingSpaces (line.drop pos)),
          mem_take_leadingSpaces _, ?_, ?_, ?_⟩
        · have h2 := drop_split line pos (leadingSpaces (line.drop pos))
          have h3 := drop_split line (pos + leadingSpaces (line.drop pos))
            (leadingNonspaces (line.drop (pos + leadingSpaces (line.drop pos))))
          dsimp only
          conv_lhs => rw [h2, h3]
          simp [List.append_assoc]
        · have hws : ((line.drop pos).take (leadingSpaces (line.drop pos))).length =
              leadingSpaces (line.drop pos) := by
            rw [List.length_take]
            omega
          have htl : ((line.drop (pos + leadingSpaces (line.drop pos))).take
              (leadingNonspaces (line.drop (pos + leadingSpaces (line.drop pos))))).length =
              leadingNonspaces (line.drop (pos + leadingSpaces (line.drop pos))) := by
            rw [List.length_take]
            have := leadingNonspaces_le (line.drop (pos + leadingSpaces (line.drop pos)))
            omega
          dsimp only
          rw [hws, htl]
        · intro c cs h
          dsimp only at h
          apply head_drop_leadingNonspaces (line.drop (pos + leadingSpaces (line.drop pos))) c cs
          rw [drop_drop_add]
          exact h

/-- Witness for C4: the tokenizer applied to a concrete line and offset. -/
theorem c4_tokenizer_witness :
    0 ≤ " a".toList.length ∧ 0 ≤ (read_next_token " a".toList 0).2 :=
  ⟨by decide, (c4_tokenizer " a".toList 0 (by decide)).1⟩

/-- C5: reading a component type tag succeeds with the token exactly when
the next token exists, has at least 13 characters, begins with `<` and ends
with the ten characters `Component>`; any other outcome is a `ValueError`
whose message names the offending token and the position;
`<AffineComponent>` is accepted while `<Affine>` and `AffineComponent>` are
rejected with that descriptive error. -/
theorem c5_component_type_tag :
    (∀ (line : List Char) (pos : Nat) (tok : List Char) (p : Nat),
      read_component_type line pos = .ok (tok, p) ↔
        (read_next_token line pos = (some tok, p) ∧ 13 ≤ tok.length ∧
         tok.headI = '<' ∧ tok.drop (tok.length - 10) = "Component>".toList)) ∧
    read_component_type "<AffineComponent>".toList 0 =
      .ok ("<AffineComponent>".toList, 17) ∧
    read_component_type "<Affine>".toList 0 = .error (.valueError
      "Error reading Component at position 8, expected <xxxComponent>, got: <Affine>.") ∧
    read_component_type "AffineComponent>".toList 0 = .error (.valueError
      "Error reading Component at position 16, expected <xxxComponent>, got: AffineComponent>.") := by
  refine ⟨?_, by decide, by decide, by decide⟩
  intro line pos tok p
  rcases hrt : read_next_token line pos with ⟨tokOpt, q⟩
  cases tokOpt with
  | none =>
    constructor
    · intro h
      simp only [read_component_type, hrt] at h
      cases h
    · rintro ⟨h, -⟩
      simp at h
  | some t =>
    constructor
    · intro h
      simp only [read_component_type, hrt] at h
      split_ifs at h with hcond
      cases h
      exact ⟨rfl, hcond⟩
    · rintro ⟨hpair, hlen, hhead, hsuf⟩
      injection hpair with h1 h2
      injection h1 with h1
      subst h1
      subst h2
      simp only [read_component_type, hrt]
      rw [if_pos ⟨hlen, hhead, hsuf⟩]

/-- Witness for C5: the general characterization applied to a concrete
line. -/
theorem c5_component_type_tag_witness :
    read_next_token "<TdnnComponent>".toList 0 = (some "<TdnnComponent>".toList, 15) ∧
    read_component_type "<TdnnComponent>".toList 0 =
      .ok ("<TdnnComponent>".toList, 15) :=
  ⟨by decide, (c5_component_type_tag.1 "<TdnnComponent>".toList 0
      "<TdnnComponent>".toList 15).mpr ⟨by decide, by decide, by decide, by decide⟩⟩

/-- C1: whenever the opening bracket has been read and the row loop
accumulates the row list `mat` (rows in source order, each row ended by a
`]` token, by line exhaustion, or by a newline inside the line), the matrix
reader returns the transpose of `mat`; on the two-line literal
`"[ 1 2 \n 3 4 ]"` the rows accumulate to `[[1,2],[3,4]]` and the reader
returns the transpose `[[1,3],[2,4]]`. -/
theorem c1_matrix_reader_transpose :
    (∀ (line : List Char) (pos p : Nat) (buf : List (List Char))
        (mat : List (List ℚ)) (l2 : List Char) (p2 : Nat) (b2 : List (List Char)),
      read_next_token line pos = (some "[".toList, p) →
      matrixLoop (streamFuel line p buf) line p buf [] = .ok (mat, l2, p2, b2) →
      rectangular mat = true →
      read_matrix_trans line pos buf = .ok (transposeRect mat, l2, p2, b2)) ∧
    matrixLoop (streamFuel "[ 1 2 \n 3 4 ]".toList 1 []) "[ 1 2 \n 3 4 ]".toList 1 [] [] =
      .ok ([[1, 2], [3, 4]], "[ 1 2 \n 3 4 ]".toList, 13, []) ∧
    transposeRect [[1, 2], [3, 4]] = [[1, 3], [2, 4]] ∧
    read_matrix_trans "[ 1 2 \n 3 4 ]".toList 0 [] =
      .ok ([[1, 3], [2, 4]], "[ 1 2 \n 3 4 ]".toList, 13, []) := by
  refine ⟨?_, by decide, by decide, by decide⟩
  intro line pos p buf mat l2 p2 b2 hread hloop hrect
  simp [read_matrix_trans, hread, hloop, hrect]

/-- Witness for C1: the general transpose property at the concrete
literal. -/
theorem c1_matrix_reader_transpose_witness :
    read_next_token "[ 1 2 \n 3 4 ]".toList 0 = (some "[".toList, 1) ∧
    read_matrix_trans "[ 1 2 \n 3 4 ]".toList 0 [] =
      .ok (transposeRect [[1, 2], [3, 4]], "[ 1 2 \n 3 4 ]".toList, 13, []) :=
  ⟨by decide, c1_matrix_reader_transpose.1 "[ 1 2 \n 3 4 ]".toList 0 1 []
    [[1, 2], [3, 4]] "[ 1 2 \n 3 4 ]".toList 13 [] (by decide) (by decide) (by decide)⟩

/-- C6: one iteration of the attribute read loop behaves by cases on the
next token: a terminating token stops with the attributes read so far; a
`None` token pulls the next buffered line and resumes at position 0; a
table token runs its reader and stores the value under the table's key; any
other token is skipped in place, consuming nothing further and raising no
error.  Concretely, an unrecognized `<Foo>` tag before `<Dim> 3` leaves a
successful parse with `dim = 3`. -/
theorem c6_attr_loop_dispatch :
    (∀ (k : Kind) (term : List (List Char)) (fuel : Nat) (line : List Char)
        (pos : Nat) (buf : List (List Char)) (attrs : AttrMap) (tok : List Char) (p : Nat),
      (read_next_token line pos = (some tok, p) → tok ∈ term →
        attrLoop k term (fuel + 1) line pos buf attrs = .ok (attrs, line, p, buf)) ∧
      (read_next_token line pos = (none, p) → ∀ l rest, buf = l :: rest →
        attrLoop k term (fuel + 1) line pos buf attrs = attrLoop k term fuel l 0 rest attrs) ∧
      (∀ r nm, read_next_token line pos = (some tok, p) → tok ∉ term →
        lookupAction k tok = some (r, nm) →
        attrLoop k term (fuel + 1) line pos buf attrs =
          (match runReader r line p buf with
           | .error e => .error e
           | .ok (v, l2, p2, b2) => attrLoop k term fuel l2 p2 b2 (amSet attrs nm v))) ∧
      (read_next_token line pos = (some tok, p) → tok ∉ term → lookupAction k tok = none →
        attrLoop k term (fuel + 1) line pos buf attrs = attrLoop k term fuel line p buf attrs)) ∧
    read_attributes .base ⟨"L1", [], none, [], []⟩ "<Foo> <Dim> 3 </E>".toList 0 []
      ["</E>".toList] =
      .ok (⟨"L1", [], some (.int 3), [], []⟩, "<Foo> <Dim> 3 </E>".toList, 18, []) := by
  refine ⟨?_, rfl⟩
  intro k term fuel line pos buf attrs tok p
  refine ⟨?_, ?_, ?_, ?_⟩
  · intro h hmem
    simp [attrLoop, h, hmem]
  · intro h l rest hbuf
    subst hbuf
    simp [attrLoop, h]
  · intro r nm h hmem hact
    simp [attrLoop, h, hmem, hact]
  · intro h hmem hact
    simp [attrLoop, h, hmem, hact]

/-- Witness for C6: the terminating-token case at a concrete input. -/
theorem c6_attr_loop_dispatch_witness :
    read_next_token "</E> x".toList 0 = (some "</E>".toList, 4) ∧
    attrLoop .base ["</E>".toList] 1 "</E> x".toList 0 [] [] =
      .ok ([], "</E> x".toList, 4, []) :=
  ⟨by decide, (c6_attr_loop_dispatch.1 .base ["</E>".toList] 0 "</E> x".toList 0 [] []
      "</E>".toList 4).1 (by decide) (by decide)⟩

/-- C7 (code bug): a vector whose opening `[` was consumed but whose `]`
never arrives makes the reader fail with the bare `StopIteration` escaping
from `next(line_buffer)` — not with the intended
`'Encountered EOF while reading vector.'` message, whose guarding check can
never fire because `next` on a file object raises rather than returning
`None`.  Shown on a one-line input, on an input that pulls one more buffered
line first, and through the float-vector wrapper. -/
theorem c7_unterminated_vector_stopiteration :
    read_vector "[ 1 2".toList 0 [] = .error .stopIteration ∧
    read_vector "[ 1".toList 0 ["2 3".toList] = .error .stopIteration ∧
    read_vector_float "[ 1 2".toList 0 [] = .error .stopIteration :=
  ⟨by decide, by decide, by decide⟩

/-- C8 (code bug): when the attribute read loop exhausts the line source
before any terminating token, `read_attributes` fails with the bare
`StopIteration` escaping from `next(line_buffer)` — not with the intended
`'Error parsing nnet3 file.'` message, whose guarding check can never fire.
Shown without and with one extra buffered line. -/
theorem c8_attr_loop_eof_stopiteration :
    read_attributes .base ⟨"L1", [], none, [], []⟩ "<Dim> 3".toList 0 [] ["</E>".toList] =
      .error .stopIteration ∧
    read_attributes .base ⟨"L1", [], none, [], []⟩ "<Dim> 3".toList 0
      ["<OutputDim> 4".toList] ["</E>".toList] = .error .stopIteration :=
  ⟨rfl, rfl⟩

/-! ## Attribute-map lemmas -/

theorem amLookup_amReplace (m : AttrMap) (k : String) (v : Value)
    (h : amContains m k = true) : amLookup (amReplace m k v) k = some v := by
  induction m with
  | nil => simp [amContains] at h
  | cons e es ih =>
    by_cases he : e.1 = k
    · simp [amReplace, he, amLookup]
    · simp only [amContains, he, if_false] at h
      simp only [amReplace, he, if_false]
      simp only [amLookup, he, if_false]
      exact ih h

theorem amLookup_append_single (m : AttrMap) (k : String) (v : Value)
    (h : amContains m k = false) : amLookup (m ++ [(k, v)]) k = some v := by
  induction m with
  | nil => simp [amLookup]
  | cons e es ih =>
    by_cases he : e.1 = k
    · simp [amContains, he] at h
    · simp only [amContains, he, if_false] at h
      simp only [List.cons_append, amLookup, he, if_false]
      exact ih h

theorem amLookup_amSet_self (m : AttrMap) (k : String) (v : Value) :
    amLookup (amSet m k v) k = some v := by
  by_cases h : amContains m k = true
  · rw [amSet, if_pos h]
    exact amLookup_amReplace m k v h
  · rw [amSet, if_neg h]
    exact amLookup_append_single m k v (by simpa using h)

/-- C10: storing under an existing key overwrites its value
(`__setitem__` is plain dict assignment), so when the same recognized tag
occurs twice in the read loop each occurrence's reader runs and the last
parsed value is the one kept, with no error: parsing
`<InputDim> 3 <InputDim> 5 </E>` succeeds and leaves `input_dim = 5`. -/
theorem c10_repeated_tag_last_wins :
    (∀ (m : AttrMap) (k : String) (v : Value), amLookup (amSet m k v) k = some v) ∧
    read_attributes .base ⟨"L1", [], none, [], []⟩
      "<InputDim> 3 <InputDim> 5 </E>".toList 0 [] ["</E>".toList] =
      .ok (⟨"L1", [], none, [("input_dim", .int 5)], []⟩,
        "<InputDim> 3 <InputDim> 5 </E>".toList, 30, []) :=
  ⟨amLookup_amSet_self, rfl⟩

theorem amLookup_cons (e : String × Value) (m : AttrMap) (k : String) :
    amLookup (e :: m) k = if e.1 = k then some e.2 else amLookup m k := rfl

theorem amReplace_cons (e : String × Value) (m : AttrMap) (k : String) (v : Value) :
    amReplace (e :: m) k v =
      if e.1 = k then (k, v) :: amReplace m k v else e :: amReplace m k v := rfl

theorem amPop_cons (e : String × Value) (m : AttrMap) (k : String) :
    amPop (e :: m) k = if e.1 = k then amPop m k else e :: amPop m k := rfl

theorem memKeys_cons (k2 : String) (ks : List String) (k : String) :
    memKeys (k2 :: ks) k = if k = k2 then true else memKeys ks k := rfl

theorem amLookup_amReplace_ne (m : AttrMap) (k k' : String) (v : Value) (h : ¬ k' = k) :
    amLookup (amReplace m k v) k' = amLookup m k' := by
  have hkk : ¬ (k = k') := fun hh => h hh.symm
  induction m with
  | nil => rfl
  | cons e es ih =>
    rw [amReplace_cons]
    by_cases he : e.1 = k
    · have he3 : ¬ (e.1 = k') := by
        rw [he]
        exact hkk
      rw [if_pos he, amLookup_cons, amLookup_cons, if_neg hkk, if_neg he3]
      exact ih
    · rw [if_neg he, amLookup_cons, amLookup_cons]
      by_cases he2 : e.1 = k'
      · rw [if_pos he2, if_pos he2]
      · rw [if_neg he2, if_neg he2]
        exact ih

theorem amLookup_append_ne (m : AttrMap) (k k' : String) (v : Value) (h : ¬ k' = k) :
    amLookup (m ++ [(k, v)]) k' = amLookup m k' := by
  induction m with
  | nil =>
    have h2 : ¬ (k = k') := fun hh => h hh.symm
    simp [amLookup, h2]
  | cons e es ih =>
    by_cases he : e.1 = k'
    · simp [amLookup, he]
    · simp [amLookup, he, ih]

theorem amLookup_amSet_ne (m : AttrMap) (k k' : String) (v : Value) (h : ¬ k' = k) :
    amLookup (amSet m k v) k' = amLookup m k' := by
  by_cases hc : amContains m k = true
  · rw [amSet, if_pos hc]
    exact amLookup_amReplace_ne m k k' v h
  · rw [amSet, if_neg hc]
    exact amLookup_append_ne m k k' v h

/-- The batch-norm adjustment as one equation: under the four stored
statistics of the right shapes, the adjusted map stores the shift in
`stats_var` and the scale in `stats_mean`. -/
theorem adjust_batchNorm_eq (attrs : AttrMap) (eps rms : ℚ) (sv sm : List ℚ)
    (h1 : amLookup attrs "stats_var" = some (.vecFloat sv))
    (h2 : amLookup attrs "epsilon" = some (.float eps))
    (h3 : amLookup attrs "target_rms" = some (.float rms))
    (h4 : amLookup attrs "stats_mean" = some (.vecFloat sm))
    (hlen : sv.length = sm.length) :
    adjustAttributes .batchNorm attrs =
      .ok (amSet (amSet attrs "stats_var"
            (.vecReal (List.zipWith (fun (s : ℝ) (m : ℚ) => -(s * (m : ℝ)))
              ((sv.map (fun x => x + eps)).map
                (fun (x : ℚ) => (rms : ℝ) * (x : ℝ) ^ (-(1 / 2) : ℝ))) sm)))
          "stats_mean" (.vecReal ((sv.map (fun x => x + eps)).map
            (fun (x : ℚ) => (rms : ℝ) * (x : ℝ) ^ (-(1 / 2) : ℝ))))) := by
  simp only [adjustAttributes]
  rw [h1, h2, h3, h4]
  dsimp only
  rw [if_pos hlen]

/-- C3: the batch-norm variant's adjustment computes, elementwise over the
raw statistics, `stats_var' = stats_var + epsilon`,
`scale = target_rms * stats_var' ^ (-1/2)`, stores `-(scale * stats_mean)`
under `stats_var` and `scale` under `stats_mean` (floating point idealized
over `ℝ`); for `epsilon = 1e-3`, `target_rms = 1`, `stats_mean = [0]`,
`stats_var = [0]` the stored scale is `(0 + 1e-3) ^ (-1/2)` and the stored
shift is `0`; every other variant's adjustment is the identity. -/
theorem c3_batchnorm_adjustment :
    (∀ (attrs : AttrMap) (eps rms : ℚ) (sv sm : List ℚ),
      amLookup attrs "stats_var" = some (.vecFloat sv) →
      amLookup attrs "epsilon" = some (.float eps) →
      amLookup attrs "target_rms" = some (.float rms) →
      amLookup attrs "stats_mean" = some (.vecFloat sm) →
      sv.length = sm.length →
      adjustAttributes .batchNorm attrs =
        .ok (amSet (amSet attrs "stats_var"
              (.vecReal (List.zipWith (fun (s : ℝ) (m : ℚ) => -(s * (m : ℝ)))
                ((sv.map (fun x => x + eps)).map
                  (fun (x : ℚ) => (rms : ℝ) * (x : ℝ) ^ (-(1 / 2) : ℝ))) sm)))
            "stats_mean" (.vecReal ((sv.map (fun x => x + eps)).map
              (fun (x : ℚ) => (rms : ℝ) * (x : ℝ) ^ (-(1 / 2) : ℝ)))))) ∧
    (∀ (k : Kind) (attrs : AttrMap), ¬ k = .batchNorm →
      adjustAttributes k attrs = .ok attrs) ∧
    (∀ attrs2, adjustAttributes .batchNorm
        [("epsilon", .float (1/1000)), ("target_rms", .float 1),
         ("stats_mean", .vecFloat [0]), ("stats_var", .vecFloat [0])] = .ok attrs2 →
      amLookup attrs2 "stats_mean" =
        some (.vecReal [((0 : ℝ) + 1/1000) ^ (-(1 / 2) : ℝ)]) ∧
      amLookup attrs2 "stats_var" = some (.vecReal [0])) := by
  refine ⟨adjust_batchNorm_eq, ?_, ?_⟩
  · intro k attrs hk
    cases k with
    | base => rfl
    | affine => rfl
    | tdnn => rfl
    | batchNorm => exact absurd rfl hk
  · intro attrs2 h
    rw [adjust_batchNorm_eq
      [("epsilon", .float (1/1000)), ("target_rms", .float 1),
       ("stats_mean", .vecFloat [0]), ("stats_var", .vecFloat [0])]
      (1/1000) 1 [0] [0] rfl rfl rfl rfl rfl] at h
    injection h with h
    subst h
    constructor
    · rw [amLookup_amSet_self]
      simp only [List.map_cons, List.map_nil, Option.some.injEq]
      congr 1
      push_cast
      norm_num
    · rw [amLookup_amSet_ne _ _ _ _ (by decide), amLookup_amSet_self]
      simp only [List.map_cons, List.map_nil, List.zipWith_cons_cons, List.zipWith_nil_right,
        Option.some.injEq]
      congr 1
      push_cast
      norm_num

/-- Witness for C3: the identity adjustment of a non-batch-norm variant and
the batch-norm equation at the concrete statistics of the spec. -/
theorem c3_batchnorm_adjustment_witness :
    adjustAttributes .base [] = .ok [] ∧
    adjustAttributes .batchNorm
      [("epsilon", .float (1/1000)), ("target_rms", .float 1),
       ("stats_mean", .vecFloat [0]), ("stats_var", .vecFloat [0])] =
      .ok (amSet (amSet
          [("epsilon", .float (1/1000)), ("target_rms", .float 1),
           ("stats_mean", .vecFloat [0]), ("stats_var", .vecFloat [0])] "stats_var"
          (.vecReal (List.zipWith (fun (s : ℝ) (m : ℚ) => -(s * (m : ℝ)))
            (([(0:ℚ)].map (fun x => x + 1/1000)).map
              (fun (x : ℚ) => ((1:ℚ) : ℝ) * (x : ℝ) ^ (-(1 / 2) : ℝ))) [0])))
        "stats_mean" (.vecReal (([(0:ℚ)].map (fun x => x + 1/1000)).map
          (fun (x : ℚ) => ((1:ℚ) : ℝ) * (x : ℝ) ^ (-(1 / 2) : ℝ))))) :=
  ⟨c3_batchnorm_adjustment.2.1 .base [] (by decide),
   c3_batchnorm_adjustment.1 _ (1/1000) 1 [0] [0] rfl rfl rfl rfl rfl⟩

/-! ## Promotion lemmas -/

theorem amLookup_amPop_self (m : AttrMap) (k : String) :
    amLookup (amPop m k) k = none := by
  induction m with
  | nil => rfl
  | cons e es ih =>
    rw [amPop_cons]
    by_cases he : e.1 = k
    · rw [if_pos he]
      exact ih
    · rw [if_neg he, amLookup_cons, if_neg he]
      exact ih

theorem amLookup_amPop_ne (m : AttrMap) (k k' : String) (h : ¬ k' = k) :
    amLookup (amPop m k) k' = amLookup m k' := by
  induction m with
  | nil => rfl
  | cons e es ih =>
    rw [amPop_cons]
    by_cases he : e.1 = k
    · have he2 : ¬ e.1 = k' := by
        rw [he]
        exact fun hh => h hh.symm
      rw [if_pos he, amLookup_cons, if_neg he2]
      exact ih
    · rw [if_neg he, amLookup_cons, amLookup_cons]
      by_cases he2 : e.1 = k'
      · rw [if_pos he2, if_pos he2]
      · rw [if_neg he2, if_neg he2]
        exact ih

theorem amLookup_amPop_preserve_none (attrs : AttrMap) (key k : String)
    (hk : amLookup attrs k = none) : amLookup (amPop attrs key) k = none := by
  by_cases hkey : k = key
  · rw [hkey]
    exact amLookup_amPop_self attrs key
  · rw [amLookup_amPop_ne attrs key k hkey]
    exact hk

theorem promoteGo_preserve_none (name : String) :
    ∀ (keys : List String) (inputs : List String) (consts attrs : AttrMap)
      (i2 : List String) (c2 a2 : AttrMap) (k : String),
    promoteGo name keys inputs consts attrs = .ok (i2, c2, a2) →
    amLookup attrs k = none → amLookup a2 k = none := by
  intro keys
  induction keys with
  | nil =>
    intro inputs consts attrs i2 c2 a2 k h hk
    simp only [promoteGo] at h
    cases h
    exact hk
  | cons key rest ih =>
    intro inputs consts attrs i2 c2 a2 k h hk
    simp only [promoteGo] at h
    cases hl : amLookup attrs key with
    | none =>
      rw [hl] at h
      exact ih _ _ _ _ _ _ _ h hk
    | some v =>
      rw [hl] at h
      dsimp only at h
      by_cases hb : key = "bias"
      · rw [if_pos hb] at h
        cases hs : valueShape0 v with
        | none =>
          rw [hs] at h
          cases h
        | some n =>
          rw [hs] at h
          dsimp only at h
          by_cases hn : n = 0
          · rw [if_pos hn] at h
            exact ih _ _ _ _ _ _ _ h (amLookup_amPop_preserve_none attrs key k hk)
          · rw [if_neg hn] at h
            exact ih _ _ _ _ _ _ _ h (amLookup_amPop_preserve_none attrs key k hk)
      · rw [if_neg hb] at h
        exact ih _ _ _ _ _ _ _ h (amLookup_amPop_preserve_none attrs key k hk)

theorem promoteGo_removes (name : String) :
    ∀ (keys : List String) (inputs : List String) (consts attrs : AttrMap)
      (i2 : List String) (c2 a2 : AttrMap),
    promoteGo name keys inputs consts attrs = .ok (i2, c2, a2) →
    ∀ k ∈ keys, amLookup a2 k = none := by
  intro keys
  induction keys with
  | nil =>
    intro inputs consts attrs i2 c2 a2 _ k hk
    cases hk
  | cons key rest ih =>
    intro inputs consts attrs i2 c2 a2 h k hk
    simp only [promoteGo] at h
    rcases List.mem_cons.mp hk with rfl | hk2
    · cases hl : amLookup attrs k with
      | none =>
        rw [hl] at h
        exact promoteGo_preserve_none name rest _ _ _ _ _ _ k h hl
      | some v =>
        rw [hl] at h
        dsimp only at h
        by_cases hb : k = "bias"
        · rw [if_pos hb] at h
          cases hs : valueShape0 v with
          | none =>
            rw [hs] at h
            cases h
          | some n =>
            rw [hs] at h
            dsimp only at h
            by_cases hn : n = 0
            · rw [if_pos hn] at h
              exact promoteGo_preserve_none name rest _ _ _ _ _ _ k h
                (amLookup_amPop_self attrs k)
            · rw [if_neg hn] at h
              exact promoteGo_preserve_none name rest _ _ _ _ _ _ k h
                (amLookup_amPop_self attrs k)
        · rw [if_neg hb] at h
          exact promoteGo_preserve_none name rest _ _ _ _ _ _ k h
            (amLookup_amPop_self attrs k)
    · cases hl : amLookup attrs key with
      | none =>
        rw [hl] at h
        exact ih _ _ _ _ _ _ h k hk2
      | some v =>
        rw [hl] at h
        dsimp only at h
        by_cases hb : key = "bias"
        · rw [if_pos hb] at h
          cases hs : valueShape0 v with
          | none =>
            rw [hs] at h
            cases h
          | some n =>
            rw [hs] at h
            dsimp only at h
            by_cases hn : n = 0
            · rw [if_pos hn] at h
              exact ih _ _ _ _ _ _ h k hk2
            · rw [if_neg hn] at h
              exact ih _ _ _ _ _ _ h k hk2
        · rw [if_neg hb] at h
          exact ih _ _ _ _ _ _ h k hk2

theorem promoteGo_preserve_other (name : String) :
    ∀ (keys : List String) (inputs : List String) (consts attrs : AttrMap)
      (i2 : List String) (c2 a2 : AttrMap) (k : String),
    promoteGo name keys inputs consts attrs = .ok (i2, c2, a2) →
    ¬ k ∈ keys → amLookup a2 k = amLookup attrs k := by
  intro keys
  induction keys with
  | nil =>
    intro inputs consts attrs i2 c2 a2 k h _
    simp only [promoteGo] at h
    cases h
    rfl
  | cons key rest ih =>
    intro inputs consts attrs i2 c2 a2 k h hk
    have hkne : ¬ k = key := fun hh => hk (hh ▸ List.mem_cons_self key rest)
    have hkrest : ¬ k ∈ rest := fun hh => hk (List.mem_cons_of_mem key hh)
    simp only [promoteGo] at h
    cases hl : amLookup attrs key with
    | none =>
      rw [hl] at h
      exact ih _ _ _ _ _ _ _ h hkrest
    | some v =>
      rw [hl] at h
      dsimp only at h
      by_cases hb : key = "bias"
      · rw [if_pos hb] at h
        cases hs : valueShape0 v with
        | none =>
          rw [hs] at h
          cases h
        | some n =>
          rw [hs] at h
          dsimp only at h
          by_cases hn : n = 0
          · rw [if_pos hn] at h
            rw [ih _ _ _ _ _ _ _ h hkrest]
            exact amLookup_amPop_ne attrs key k hkne
          · rw [if_neg hn] at h
            rw [ih _ _ _ _ _ _ _ h hkrest]
            exact amLookup_amPop_ne attrs key k hkne
      · rw [if_neg hb] at h
        rw [ih _ _ _ _ _ _ _ h hkrest]
        exact amLookup_amPop_ne attrs key k hkne

/-- C9: after any successful `read_attributes`, `dim` is no longer a key of
the attribute map, every promotion candidate key is gone from the attribute
map, and in particular no promoted key is present in both the attribute map
and (under its prefixed name) the constants map: promotion moves values. -/
theorem c9_promotion_invariants :
    ∀ (k : Kind) (c : CompState) (line : List Char) (pos : Nat)
      (buf : List (List Char)) (term : List (List Char)) (c' : CompState)
      (l' : List Char) (p' : Nat) (b' : List (List Char)),
    read_attributes k c line pos buf term = .ok (c', l', p', b') →
    amLookup c'.attrs "dim" = none ∧
    ∀ key ∈ constNames, amLookup c'.attrs key = none ∧
      ¬((amLookup c'.attrs key).isSome = true ∧
        (amLookup c'.consts (constName c'.name key)).isSome = true) := by
  intro k c line pos buf term c' l' p' b' h
  unfold read_attributes at h
  cases h1 : attrLoop k term (streamFuel line pos buf) line pos buf c.attrs with
  | error e =>
    rw [h1] at h
    cases h
  | ok r1 =>
    rw [h1] at h
    rcases r1 with ⟨attrs1, line1, pos1, buf1⟩
    dsimp only at h
    cases h2 : adjustAttributes k attrs1 with
    | error e =>
      rw [h2] at h
      cases h
    | ok attrs2 =>
      rw [h2] at h
      dsimp only at h
      unfold promoteConsts at h
      cases h3 : amLookup attrs2 "dim" with
      | some v =>
        rw [h3] at h
        dsimp only at h
        cases h4 : promoteGo c.name constNames c.inputs c.consts (amPop attrs2 "dim") with
        | error e =>
          rw [h4] at h
          cases h
        | ok r4 =>
          rw [h4] at h
          rcases r4 with ⟨inputs4, consts4, attrs4⟩
          dsimp only at h
          cases h
          dsimp only
          constructor
          · rw [promoteGo_preserve_other c.name constNames _ _ _ _ _ _ "dim" h4 (by decide)]
            exact amLookup_amPop_self attrs2 "dim"
          · intro key hkey
            have hnone := promoteGo_removes c.name constNames _ _ _ _ _ _ h4 key hkey
            refine ⟨hnone, ?_⟩
            rw [hnone]
            simp
      | none =>
        rw [h3] at h
        dsimp only at h
        cases h4 : promoteGo c.name constNames c.inputs c.consts attrs2 with
        | error e =>
          rw [h4] at h
          cases h
        | ok r4 =>
          rw [h4] at h
          rcases r4 with ⟨inputs4, consts4, attrs4⟩
          dsimp only at h
          cases h
          dsimp only
          constructor
          · rw [promoteGo_preserve_other c.name constNames _ _ _ _ _ _ "dim" h4 (by decide)]
            exact h3
          · intro key hkey
            have hnone := promoteGo_removes c.name constNames _ _ _ _ _ _ h4 key hkey
            refine ⟨hnone, ?_⟩
            rw [hnone]
            simp

/-- Witness for C9: the invariant instantiated on a concrete successful
parse of `<Dim> 3 </E>`. -/
theorem c9_promotion_invariants_witness :
    amLookup (CompState.mk "L1" [] (some (Value.int 3)) [] []).attrs "dim" = none :=
  (c9_promotion_invariants .base ⟨"L1", [], none, [], []⟩ "<Dim> 3 </E>".toList 0 []
    ["</E>".toList] ⟨"L1", [], some (Value.int 3), [], []⟩ "<Dim> 3 </E>".toList 12 []
    rfl).1

theorem amLookup_none_forall (m : AttrMap) (k : String) (h : amLookup m k = none) :
    ∀ e ∈ m, ¬ e.1 = k := by
  induction m with
  | nil =>
    intro e he
    cases he
  | cons e es ih =>
    rw [amLookup_cons] at h
    by_cases he : e.1 = k
    · rw [if_pos he] at h
      cases h
    · rw [if_neg he] at h
      intro f hf
      rcases List.mem_cons.mp hf with rfl | hf2
      · exact he
      · exact ih h f hf2

theorem promotedP_of_none (attrs : AttrMap) (key : String)
    (hl : amLookup attrs key = none) : promotedP attrs key = false := by
  unfold promotedP
  rw [hl]

theorem promotedP_of_some_nonbias (attrs : AttrMap) (key : String) (v : Value)
    (hl : amLookup attrs key = some v) (hk : ¬ key = "bias") :
    promotedP attrs key = true := by
  unfold promotedP
  rw [hl]
  have hb : (key == "bias") = false := beq_eq_false_iff_ne.mpr hk
  rw [hb]
  simp

theorem promotedP_of_bias_zero (attrs : AttrMap) (v : Value)
    (hl : amLookup attrs "bias" = some v) (hs : valueShape0 v = some 0) :
    promotedP attrs "bias" = false := by
  unfold promotedP
  rw [hl]
  dsimp only
  rw [hs]
  simp

theorem promotedP_of_bias_nonzero (attrs : AttrMap) (v : Value) (n : Nat)
    (hl : amLookup attrs "bias" = some v) (hs : valueShape0 v = some n)
    (hn : ¬ n = 0) : promotedP attrs "bias" = true := by
  unfold promotedP
  rw [hl]
  dsimp only
  rw [hs]
  have hz : ((some n : Option Nat) == some 0) = false := by
    rw [beq_eq_false_iff_ne]
    intro hh
    injection hh with hh
    exact hn hh
  rw [hz]
  simp

theorem promotedKeysSpec_cons (attrs : AttrMap) (key : String) (rest : List String) :
    promotedKeysSpec attrs (key :: rest) =
      if promotedP attrs key = true then key :: promotedKeysSpec attrs rest
      else promotedKeysSpec attrs rest := by
  unfold promotedKeysSpec
  rw [List.filter_cons]

theorem promoteInputsSpec_cons_true (name : String) (attrs : AttrMap) (key : String)
    (rest : List String) (hp : promotedP attrs key = true) :
    promoteInputsSpec name attrs (key :: rest) =
      constName name key :: promoteInputsSpec name attrs rest := by
  unfold promoteInputsSpec
  rw [promotedKeysSpec_cons, if_pos hp, List.map_cons]

theorem promoteInputsSpec_cons_false (name : String) (attrs : AttrMap) (key : String)
    (rest : List String) (hp : promotedP attrs key = false) :
    promoteInputsSpec name attrs (key :: rest) = promoteInputsSpec name attrs rest := by
  unfold promoteInputsSpec
  rw [promotedKeysSpec_cons, hp]
  simp

theorem promoteConstsSpec_cons_true (name : String) (attrs : AttrMap) (key : String)
    (rest : List String) (consts : AttrMap) (hp : promotedP attrs key = true) :
    promoteConstsSpec name attrs (key :: rest) consts =
      promoteConstsSpec name attrs rest
        (amSet consts (constName name key) ((amLookup attrs key).getD (Value.int 0))) := by
  simp only [promoteConstsSpec]
  rw [if_pos hp]

theorem promoteConstsSpec_cons_false (name : String) (attrs : AttrMap) (key : String)
    (rest : List String) (consts : AttrMap) (hp : promotedP attrs key = false) :
    promoteConstsSpec name attrs (key :: rest) consts =
      promoteConstsSpec name attrs rest consts := by
  simp only [promoteConstsSpec]
  rw [hp]
  simp

theorem promotedP_congr (attrs attrs' : AttrMap) (k : String)
    (h : amLookup attrs k = amLookup attrs' k) :
    promotedP attrs k = promotedP attrs' k := by
  unfold promotedP
  rw [h]

theorem promotedKeysSpec_congr (attrs attrs' : AttrMap) (keys : List String)
    (h : ∀ k ∈ keys, amLookup attrs k = amLookup attrs' k) :
    promotedKeysSpec attrs keys = promotedKeysSpec attrs' keys := by
  induction keys with
  | nil => rfl
  | cons key rest ih =>
    rw [promotedKeysSpec_cons, promotedKeysSpec_cons]
    rw [promotedP_congr attrs attrs' key (h key (List.mem_cons_self key rest))]
    rw [ih (fun k hk => h k (List.mem_cons_of_mem key hk))]

theorem promoteInputsSpec_congr (name : String) (attrs attrs' : AttrMap)
    (keys : List String) (h : ∀ k ∈ keys, amLookup attrs k = amLookup attrs' k) :
    promoteInputsSpec name attrs keys = promoteInputsSpec name attrs' keys := by
  unfold promoteInputsSpec
  rw [promotedKeysSpec_congr attrs attrs' keys h]

theorem promoteConstsSpec_congr (name : String) (attrs attrs' : AttrMap)
    (keys : List String) (h : ∀ k ∈ keys, amLookup attrs k = amLookup attrs' k) :
    ∀ consts, promoteConstsSpec name attrs keys consts =
      promoteConstsSpec name attrs' keys consts := by
  induction keys with
  | nil =>
    intro c
    rfl
  | cons key rest ih =>
    intro c
    have hk := h key (List.mem_cons_self key rest)
    have ih2 := ih (fun k2 hk2 => h k2 (List.mem_cons_of_mem key hk2))
    simp only [promoteConstsSpec]
    rw [promotedP_congr attrs attrs' key hk, hk]
    by_cases hp : promotedP attrs' key = true
    · rw [if_pos hp, if_pos hp]
      exact ih2 _
    · rw [if_neg hp, if_neg hp]
      exact ih2 _

theorem promoteAttrsSpec_nil (attrs : AttrMap) : promoteAttrsSpec attrs [] = attrs := by
  unfold promoteAttrsSpec
  have hfun : (fun (e : String × Value) => !memKeys [] e.1) = fun _ => true := by
    funext e
    rfl
  rw [hfun, List.filter_true]

theorem promoteAttrsSpec_cons_absent (attrs : AttrMap) (key : String)
    (rest : List String) (hall : ∀ e ∈ attrs, ¬ e.1 = key) :
    promoteAttrsSpec attrs (key :: rest) = promoteAttrsSpec attrs rest := by
  unfold promoteAttrsSpec
  induction attrs with
  | nil => rfl
  | cons e es ih =>
    have he : ¬ e.1 = key := hall e (List.mem_cons_self e es)
    rw [List.filter_cons, List.filter_cons]
    rw [memKeys_cons, if_neg he]
    rw [ih (fun f hf => hall f (List.mem_cons_of_mem e hf))]

theorem promoteAttrsSpec_cons_pop (attrs : AttrMap) (key : String)
    (rest : List String) :
    promoteAttrsSpec (amPop attrs key) rest = promoteAttrsSpec attrs (key :: rest) := by
  unfold promoteAttrsSpec
  induction attrs with
  | nil => rfl
  | cons e es ih =>
    rw [amPop_cons]
    by_cases he : e.1 = key
    · rw [if_pos he]
      rw [List.filter_cons, memKeys_cons, if_pos he]
      simp only [Bool.not_true]
      rw [if_neg (by simp)]
      exact ih
    · rw [if_neg he]
      rw [List.filter_cons, List.filter_cons, memKeys_cons, if_neg he]
      rw [ih]

/-- The promotion loop refines its specification-level description: under
distinct candidate keys and a `bias` value that has a shape whenever
present, the loop returns the original inputs extended by the prefixed
names of the promoted keys in candidate order, the constants extended by
the promoted values, and the attribute map with every candidate key
removed. -/
theorem promoteGo_eq (name : String) :
    ∀ (keys : List String) (inputs : List String) (consts attrs : AttrMap),
    keys.Nodup →
    (∀ v, "bias" ∈ keys → amLookup attrs "bias" = some v →
      (valueShape0 v).isSome = true) →
    promoteGo name keys inputs consts attrs =
      .ok (inputs ++ promoteInputsSpec name attrs keys,
           promoteConstsSpec name attrs keys consts,
           promoteAttrsSpec attrs keys) := by
  intro keys
  induction keys with
  | nil =>
    intro inputs consts attrs _ _
    rw [promoteAttrsSpec_nil]
    simp [promoteGo, promoteInputsSpec, promotedKeysSpec, promoteConstsSpec]
  | cons key rest ih =>
    intro inputs consts attrs hnd hb
    have hkeynotin : ¬ key ∈ rest := (List.nodup_cons.mp hnd).1
    have hndrest : rest.Nodup := (List.nodup_cons.mp hnd).2
    simp only [promoteGo]
    cases hl : amLookup attrs key with
    | none =>
      dsimp only
      rw [ih inputs consts attrs hndrest
        (fun v hm hlk => hb v (List.mem_cons_of_mem _ hm) hlk)]
      have hp := promotedP_of_none attrs key hl
      rw [promoteInputsSpec_cons_false name attrs key rest hp,
        promoteConstsSpec_cons_false name attrs key rest consts hp,
        promoteAttrsSpec_cons_absent attrs key rest (amLookup_none_forall attrs key hl)]
    | some v =>
      dsimp only
      by_cases hbkey : key = "bias"
      · subst hbkey
        rw [if_pos rfl]
        have hshape := hb v (List.mem_cons_self _ _) hl
        cases hs : valueShape0 v with
        | none =>
          rw [hs] at hshape
          cases hshape
        | some n =>
          dsimp only
          by_cases hn : n = 0
          · subst hn
            rw [if_pos rfl]
            have hlk_eq : ∀ k2 ∈ rest,
                amLookup (amPop attrs "bias") k2 = amLookup attrs k2 :=
              fun k2 hk2 =>
                amLookup_amPop_ne attrs "bias" k2 (fun hh => hkeynotin (hh ▸ hk2))
            have hb2 : ∀ v2, "bias" ∈ rest →
                amLookup (amPop attrs "bias") "bias" = some v2 →
                (valueShape0 v2).isSome = true := by
              intro v2 hm hlk
              rw [amLookup_amPop_self] at hlk
              cases hlk
            rw [ih inputs consts (amPop attrs "bias") hndrest hb2]
            have hp := promotedP_of_bias_zero attrs v hl hs
            rw [promoteInputsSpec_congr name (amPop attrs "bias") attrs rest hlk_eq,
              promoteConstsSpec_congr name (amPop attrs "bias") attrs rest hlk_eq consts,
              promoteAttrsSpec_cons_pop attrs "bias" rest]
            rw [promoteInputsSpec_cons_false name attrs "bias" rest hp,
              promoteConstsSpec_cons_false name attrs "bias" rest consts hp]
          · rw [if_neg hn]
            have hlk_eq : ∀ k2 ∈ rest,
                amLookup (amPop attrs "bias") k2 = amLookup attrs k2 :=
              fun k2 hk2 =>
                amLookup_amPop_ne attrs "bias" k2 (fun hh => hkeynotin (hh ▸ hk2))
            have hb2 : ∀ v2, "bias" ∈ rest →
                amLookup (amPop attrs "bias") "bias" = some v2 →
                (valueShape0 v2).isSome = true := by
              intro v2 hm hlk
              rw [amLookup_amPop_self] at hlk
              cases hlk
            rw [ih (inputs ++ [constName name "bias"])
              (amSet consts (constName name "bias") v) (amPop attrs "bias") hndrest hb2]
            have hp := promotedP_of_bias_nonzero attrs v n hl hs hn
            rw [promoteInputsSpec_congr name (amPop attrs "bias") attrs rest hlk_eq,
              promoteConstsSpec_congr name (amPop attrs "bias") attrs rest hlk_eq
                (amSet consts (constName name "bias") v),
              promoteAttrsSpec_cons_pop attrs "bias" rest]
            rw [promoteInputsSpec_cons_true name attrs "bias" rest hp,
              promoteConstsSpec_cons_true name attrs "bias" rest consts hp]
            rw [hl]
            simp [List.append_assoc]
      · rw [if_neg hbkey]
        have hlk_eq : ∀ k2 ∈ rest,
            amLookup (amPop attrs key) k2 = amLookup attrs k2 :=
          fun k2 hk2 =>
            amLookup_amPop_ne attrs key k2 (fun hh => hkeynotin (hh ▸ hk2))
        have hb2 : ∀ v2, "bias" ∈ rest →
            amLookup (amPop attrs key) "bias" = some v2 →
            (valueShape0 v2).isSome = true := by
          intro v2 hm hlk
          rw [amLookup_amPop_ne attrs key "bias" (fun hh => hbkey hh.symm)] at hlk
          exact hb v2 (List.mem_cons_of_mem _ hm) hlk
        rw [ih (inputs ++ [constName name key])
          (amSet consts (constName name key) v) (amPop attrs key) hndrest hb2]
        have hp := promotedP_of_some_nonbias attrs key v hl hbkey
        rw [promoteInputsSpec_congr name (amPop attrs key) attrs rest hlk_eq,
          promoteConstsSpec_congr name (amPop attrs key) attrs rest hlk_eq
            (amSet consts (constName name key) v),
          promoteAttrsSpec_cons_pop attrs key rest]
        rw [promoteInputsSpec_cons_true name attrs key rest hp,
          promoteConstsSpec_cons_true name attrs key rest consts hp]
        rw [hl]
        simp [List.append_assoc]

/-- C2: constant promotion inspects `params`, `bias`, `stats_mean`,
`stats_var` in exactly that order: each present key is moved into the
constants under `"{name}_{key}"` with that name appended to the inputs and
the key removed from the attributes — except a present `bias` of length
zero, which is dropped with no constant and no input added.  The general
equation refines the loop against its specification-level description; the
concrete cases show an empty and a non-empty `bias` for component `L1`, and
a fully populated map promoting in table order. -/
theorem c2_constant_promotion :
    (∀ (name : String) (inputs : List String) (consts attrs : AttrMap),
      (∀ v, amLookup attrs "bias" = some v → (valueShape0 v).isSome = true) →
      promoteConsts name inputs consts attrs =
        .ok (inputs ++ promoteInputsSpec name attrs constNames,
             promoteConstsSpec name attrs constNames consts,
             promoteAttrsSpec attrs constNames)) ∧
    promoteConsts "L1" [] [] [("bias", .vecFloat [])] = .ok ([], [], []) ∧
    promoteConsts "L1" [] [] [("bias", .vecFloat [1])] =
      .ok (["L1_bias"], [("L1_bias", .vecFloat [1])], []) ∧
    promoteConsts "L1" ["x"] []
      [("stats_var", .vecFloat [1]), ("params", .matrix [[1]]),
       ("bias", .vecFloat [2]), ("stats_mean", .vecFloat [3])] =
      .ok (["x", "L1_params", "L1_bias", "L1_stats_mean", "L1_stats_var"],
           [("L1_params", .matrix [[1]]), ("L1_bias", .vecFloat [2]),
            ("L1_stats_mean", .vecFloat [3]), ("L1_stats_var", .vecFloat [1])], []) := by
  refine ⟨?_, rfl, rfl, rfl⟩
  intro name inputs consts attrs hb
  exact promoteGo_eq name constNames inputs consts attrs (by decide)
    (fun v _ hlk => hb v hlk)

/-- Witness for C2: the promotion equation at a concrete component. -/
theorem c2_constant_promotion_witness :
    promoteConsts "W" ["i0"] [] [("params", .matrix [[2]])] =
      .ok (["i0"] ++ promoteInputsSpec "W" [("params", .matrix [[2]])] constNames,
           promoteConstsSpec "W" [("params", .matrix [[2]])] constNames [],
           promoteAttrsSpec [("params", .matrix [[2]])] constNames) :=
  c2_constant_promotion.1 "W" ["i0"] [] [("params", .matrix [[2]])]
    (fun _ hlk => Option.noConfusion hlk)

end Kaldi
